import Mathlib

/-!
Shallow embedding of the r1cs-bellman translation core (src/lib.rs).

The core translates an r1cs `Gadget` (a list of multiplicative constraints
over generic wires) into calls against a bellman `ConstraintSystem`.  The
backend is modelled as a trace machine: a state `CSState` records the
variable counters and the chronological list of backend calls (allocation
and enforcement events).  bellman's `alloc`/`alloc_input` primitives return
`Result<Variable, SynthesisError>`; the source invokes them with `.unwrap()`,
so a failing allocation aborts the pass by panicking.  We model a run as a
state-and-except computation whose error type `Outcome` distinguishes a
panic from a returned error, and parametrise the backend's allocation
behaviour by an oracle `failAt` mapping the current allocation count to an
optional failure.
-/

namespace R1csBellman

/-- bellman's `SynthesisError` (the variants relevant to this core: an
assignment-missing variant plus an opaque remainder). -/
inductive SynthesisError where
  | assignmentMissing : SynthesisError
  | other : Nat → SynthesisError
deriving DecidableEq

/-- How a Rust function with signature `Result<A, SynthesisError>` can fail
observably: by panicking (e.g. `.unwrap()` on an `Err`) or by returning the
error value to its caller. -/
inductive Outcome where
  | panicked : SynthesisError → Outcome
  | returnedErr : SynthesisError → Outcome
deriving DecidableEq

/-- r1cs `Wire`: an opaque index (`u32` in the source). -/
structure Wire where
  index : Nat
deriving DecidableEq

/-- bellman `Variable`: a handle to an allocated constraint-system variable,
either a public input (with its input ordinal) or a private auxiliary
variable (with its aux ordinal). -/
inductive Variable where
  | input : Nat → Variable
  | aux : Nat → Variable
deriving DecidableEq

/-- bellman `LinearCombination`: an ordered list of (variable, coefficient)
terms; `lc + (coeff, var)` pushes `(var, coeff)` at the end. -/
abbrev LinearCombination (Fr : Type) := List (Variable × Fr)

/-- The source `LinearCombination::zero()`: the empty linear combination. -/
def LinearCombination.zero (Fr : Type) : LinearCombination Fr := []

/-- r1cs `Expression<F>`: its `coefficients()` map, as the sequence of
(wire, coefficient) pairs in iteration order (a `BTreeMap` in the source,
so keys are unique and ordered; we keep the sequence abstract). -/
structure Expression (F : Type) where
  coefficients : List (Wire × F)
deriving DecidableEq

/-- r1cs `Constraint<F>`: asserts `a * b = c`. -/
structure Constraint (F : Type) where
  a : Expression F
  b : Expression F
  c : Expression F
deriving DecidableEq

/-- r1cs `Gadget<F>`: the ordered list of constraints. -/
structure Gadget (F : Type) where
  constraints : List (Constraint F)
deriving DecidableEq

/-- Model of `WrappedCircuit<F, E>` from src/lib.rs: the gadget, the witness map from
wire index to a backend field element (`BTreeMap<u32, E::Fr>`, modelled as
an association list looked up by key), the list of public wires, and the
injected field-element converter `fn(&Element<F>) -> E::Fr`. -/
structure WrappedCircuit (F Fr : Type) where
  gadget : Gadget F
  witness_map : List (Nat × Fr)
  public_inputs : List Wire
  convert_field : F → Fr

instance exceptDecEq {ε α : Type} [DecidableEq ε] [DecidableEq α] :
    DecidableEq (Except ε α)
  | Except.ok a, Except.ok b => decidable_of_iff (a = b) (by simp)
  | Except.ok _, Except.error _ => isFalse (by simp)
  | Except.error _, Except.ok _ => isFalse (by simp)
  | Except.error e, Except.error f => decidable_of_iff (e = f) (by simp)

/-- One backend call recorded in the trace: a private allocation
(`cs.alloc`), a public-input allocation (`cs.alloc_input`) — each carrying
its label and the result its value closure returns when invoked — or a
constraint registration (`cs.enforce`) with its label and the three linear
combinations. -/
inductive Event (Fr : Type) where
  | alloc : String → Except SynthesisError Fr → Event Fr
  | allocInput : String → Except SynthesisError Fr → Event Fr
  | enforce : String → LinearCombination Fr → LinearCombination Fr →
      LinearCombination Fr → Event Fr
deriving DecidableEq

/-- The backend constraint system's observable state: how many public-input
and auxiliary variables have been allocated, and the chronological trace of
backend calls. -/
structure CSState (Fr : Type) where
  numInputs : Nat
  numAux : Nat
  events : List (Event Fr)
deriving DecidableEq

/-- Total number of variables allocated so far. -/
def CSState.allocCount {Fr : Type} (s : CSState Fr) : Nat :=
  s.numInputs + s.numAux

/-- A computation against the backend: state passing with a possible abort. -/
def M (Fr α : Type) : Type := CSState Fr → Except Outcome α × CSState Fr

/-- Return a value without touching the backend. -/
def M.pure {Fr α : Type} (a : α) : M Fr α := fun s => (Except.ok a, s)

/-- Sequencing: an abort short-circuits the rest of the pass. -/
def M.bind {Fr α β : Type} (x : M Fr α) (f : α → M Fr β) : M Fr β := fun s =>
  match x s with
  | (Except.ok a, s₁) => f a s₁
  | (Except.error o, s₁) => (Except.error o, s₁)

/-- bellman `cs.alloc(label, value)`: allocate a private (auxiliary)
variable.  May fail (the oracle `failAt` decides, keyed on the current
allocation count); on success it appends an allocation event and returns
the aux handle. -/
def csAlloc {Fr : Type} (failAt : Nat → Option SynthesisError) (label : String)
    (value : Except SynthesisError Fr) (s : CSState Fr) :
    Except SynthesisError (Variable × CSState Fr) :=
  match failAt s.allocCount with
  | some e => Except.error e
  | none =>
      Except.ok (Variable.aux s.numAux,
        { s with numAux := s.numAux + 1,
                 events := s.events ++ [Event.alloc label value] })

/-- bellman `cs.alloc_input(label, value)`: allocate a public-input
variable; otherwise as `csAlloc`. -/
def csAllocInput {Fr : Type} (failAt : Nat → Option SynthesisError)
    (label : String) (value : Except SynthesisError Fr) (s : CSState Fr) :
    Except SynthesisError (Variable × CSState Fr) :=
  match failAt s.allocCount with
  | some e => Except.error e
  | none =>
      Except.ok (Variable.input s.numInputs,
        { s with numInputs := s.numInputs + 1,
                 events := s.events ++ [Event.allocInput label value] })

/-- Rust `.unwrap()` applied to an allocation result: on `Ok` the pass
continues with the handle; on `Err` the pass panics (the backend state is
whatever it was before the failed call). -/
def unwrapAlloc {Fr : Type} (r : Except SynthesisError (Variable × CSState Fr))
    (s : CSState Fr) : Except Outcome Variable × CSState Fr :=
  match r with
  | Except.ok (v, s₁) => (Except.ok v, s₁)
  | Except.error e => (Except.error (Outcome.panicked e), s)

/-- bellman `cs.enforce(label, a, b, c)`: registers one constraint; the
trait method is infallible (it returns unit). -/
def csEnforce {Fr : Type} (label : String) (a b c : LinearCombination Fr) :
    M Fr Unit := fun s =>
  (Except.ok (), { s with events := s.events ++ [Event.enforce label a b c] })

/-- The backend allocation oracle that never fails. -/
def noFailOracle : Nat → Option SynthesisError := fun _ => none

/-- Model of `convert_wire` from src/lib.rs: look the wire's index up in the witness
map; decide visibility by membership of the wire in the public-input set;
allocate a public or private variable whose value closure returns the
stored witness value, or zero (`E::Fr::from_str("0").unwrap()`, the
additive identity) when the index is absent; `.unwrap()` the allocation
result. -/
def convert_wire {Fr : Type} [Zero Fr] (failAt : Nat → Option SynthesisError)
    (wire : Wire) (witness_map : List (Nat × Fr)) (public_inputs : List Wire) :
    M Fr Variable := fun cs =>
  let wire_index := wire.index
  let witness := witness_map.lookup wire_index
  let is_public := public_inputs.contains wire
  match witness with
  | some wtns =>
      if is_public then
        unwrapAlloc (csAllocInput failAt "public input" (Except.ok wtns) cs) cs
      else
        unwrapAlloc (csAlloc failAt "private input" (Except.ok wtns) cs) cs
  | none =>
      if is_public then
        unwrapAlloc (csAllocInput failAt "public input" (Except.ok (0 : Fr)) cs) cs
      else
        unwrapAlloc (csAlloc failAt "private input" (Except.ok (0 : Fr)) cs) cs

/-- The loop body of `convert_lc` from src/lib.rs: fold over the
expression's (wire, coefficient) pairs, converting each coefficient,
resolving each wire, and appending `(var, fr)` to the running sum. -/
def convert_lc_loop {F Fr : Type} [Zero Fr] (failAt : Nat → Option SynthesisError)
    (convert_field : F → Fr) (witness_map : List (Nat × Fr))
    (public_inputs : List Wire) :
    List (Wire × F) → LinearCombination Fr → M Fr (LinearCombination Fr)
  | [], sum => M.pure sum
  | (wire, coeff) :: rest, sum =>
      let fr := convert_field coeff
      M.bind (convert_wire failAt wire witness_map public_inputs) fun var =>
        convert_lc_loop failAt convert_field witness_map public_inputs rest
          (sum ++ [(var, fr)])

/-- Model of `convert_lc` from src/lib.rs: start from `LinearCombination::zero()` and
accumulate one term per coefficient pair. -/
def convert_lc {F Fr : Type} [Zero Fr] (failAt : Nat → Option SynthesisError)
    (exp : Expression F) (convert_field : F → Fr)
    (witness_map : List (Nat × Fr)) (public_inputs : List Wire) :
    M Fr (LinearCombination Fr) :=
  convert_lc_loop failAt convert_field witness_map public_inputs
    exp.coefficients (LinearCombination.zero Fr)

/-- The constraint loop of `WrappedCircuit::synthesize` from src/lib.rs:
for each constraint, translate `a`, `b`, `c`, then `cs.enforce` with the
label built by the source's format macro: the fixed text
"generated by r1cs-bellman at " followed by the decimal rendering of the
running index `i`; then continue with `i + 1`. -/
def synthesize_loop {F Fr : Type} [Zero Fr] (failAt : Nat → Option SynthesisError)
    (convert_field : F → Fr) (witness_map : List (Nat × Fr))
    (public_inputs : List Wire) :
    List (Constraint F) → Nat → M Fr Unit
  | [], _ => M.pure ()
  | constraint :: rest, i =>
      M.bind (convert_lc failAt constraint.a convert_field witness_map public_inputs)
        fun a_lc =>
      M.bind (convert_lc failAt constraint.b convert_field witness_map public_inputs)
        fun b_lc =>
      M.bind (convert_lc failAt constraint.c convert_field witness_map public_inputs)
        fun c_lc =>
      M.bind (csEnforce ("generated by r1cs-bellman at " ++ toString i) a_lc b_lc c_lc)
        fun _ =>
      synthesize_loop failAt convert_field witness_map public_inputs rest (i + 1)

/-- Model of `WrappedCircuit::synthesize` from src/lib.rs.  The source first turns
`public_inputs` into a `HashSet` via `HashSet::from_iter`; the set is only
ever consulted through `.contains`, which we model by `List.contains` on
the original list (membership is invariant under the conversion).  Then it
runs the constraint loop starting at index 0 and returns `Ok(())`. -/
def synthesize {F Fr : Type} [Zero Fr] (failAt : Nat → Option SynthesisError)
    (circ : WrappedCircuit F Fr) : M Fr Unit :=
  synthesize_loop failAt circ.convert_field circ.witness_map circ.public_inputs
    circ.gadget.constraints 0

/-- The value `convert_wire` binds for a wire: the stored witness value when
the wire's index is present, the additive identity otherwise. -/
def wireValue {Fr : Type} [Zero Fr] (witness_map : List (Nat × Fr))
    (wire : Wire) : Fr :=
  (witness_map.lookup wire.index).getD 0

/-- The allocation event produced by resolving one wire: a public-input
allocation when the visibility flag is set, a private allocation otherwise. -/
def allocEventOf {Fr : Type} (isPub : Bool) (value : Except SynthesisError Fr) :
    Event Fr :=
  if isPub then Event.allocInput "public input" value
  else Event.alloc "private input" value

/-- Whether an event is an allocation call (of either visibility). -/
def Event.isAllocEvent {Fr : Type} : Event Fr → Bool
  | Event.alloc _ _ => true
  | Event.allocInput _ _ => true
  | Event.enforce _ _ _ _ => false

/-- Whether an event is a public-input allocation call. -/
def Event.isInputAlloc {Fr : Type} : Event Fr → Bool
  | Event.allocInput _ _ => true
  | _ => false

/-- Whether an event's value closure returns a concrete value: allocation
events must carry an `ok` value; enforcement events have no value closure. -/
def Event.valueConcrete {Fr : Type} : Event Fr → Bool
  | Event.alloc _ v => v.isOk
  | Event.allocInput _ v => v.isOk
  | Event.enforce _ _ _ _ => true

/-- Number of allocation calls recorded in a trace. -/
def allocEventCount {Fr : Type} (evs : List (Event Fr)) : Nat :=
  (evs.filter Event.isAllocEvent).length

/-- The labels of the enforcement calls recorded in a trace, in order. -/
def enforceLabels {Fr : Type} (evs : List (Event Fr)) : List String :=
  evs.filterMap fun e =>
    match e with
    | Event.enforce l _ _ _ => some l
    | _ => none

/-- The diagnostic label the core attaches to the i-th registered
constraint. -/
def labelAt (i : Nat) : String := "generated by r1cs-bellman at " ++ toString i

/-- Evaluate a backend linear combination under an assignment of values to
variables: the sum of coefficient times variable value over its terms. -/
def LinearCombination.eval {Fr : Type} [Semiring Fr] (assign : Variable → Fr)
    (lc : LinearCombination Fr) : Fr :=
  (lc.map fun t => t.2 * assign t.1).sum

/-- Number of (wire, coefficient) pairs of an expression. -/
def Expression.size {F : Type} (e : Expression F) : Nat :=
  e.coefficients.length

/-- Total number of wire occurrences across all expressions of all
constraints of a gadget, counted with multiplicity. -/
def Gadget.totalWireOccurrences {F : Type} (g : Gadget F) : Nat :=
  (g.constraints.map fun cstr =>
    cstr.a.size + cstr.b.size + cstr.c.size).sum

/-! ### Characterization lemmas -/

theorem convert_wire_eq {Fr : Type} [Zero Fr] (failAt : Nat → Option SynthesisError)
    (wire : Wire) (wm : List (Nat × Fr)) (pub : List Wire) (s : CSState Fr) :
    convert_wire failAt wire wm pub s =
      match failAt s.allocCount with
      | some e => (Except.error (Outcome.panicked e), s)
      | none =>
          (Except.ok (if pub.contains wire then Variable.input s.numInputs
                      else Variable.aux s.numAux),
           { numInputs := if pub.contains wire then s.numInputs + 1 else s.numInputs,
             numAux := if pub.contains wire then s.numAux else s.numAux + 1,
             events := s.events ++
               [allocEventOf (pub.contains wire) (Except.ok (wireValue wm wire))] }) := by
  unfold convert_wire csAlloc csAllocInput unwrapAlloc allocEventOf wireValue
  cases hf : failAt s.allocCount <;> cases hl : wm.lookup wire.index <;>
    cases hp : pub.contains wire <;> simp [hf, hl, hp]

theorem convert_wire_noFail {Fr : Type} [Zero Fr]
    (wire : Wire) (wm : List (Nat × Fr)) (pub : List Wire) (s : CSState Fr) :
    convert_wire noFailOracle wire wm pub s =
      (Except.ok (if pub.contains wire then Variable.input s.numInputs
                  else Variable.aux s.numAux),
       { numInputs := if pub.contains wire then s.numInputs + 1 else s.numInputs,
         numAux := if pub.contains wire then s.numAux else s.numAux + 1,
         events := s.events ++
           [allocEventOf (pub.contains wire) (Except.ok (wireValue wm wire))] }) := by
  rw [convert_wire_eq]
  rfl

theorem enforceLabels_append {Fr : Type} (xs ys : List (Event Fr)) :
    enforceLabels (xs ++ ys) = enforceLabels xs ++ enforceLabels ys := by
  simp [enforceLabels, List.filterMap_append]

theorem allocEventCount_append {Fr : Type} (xs ys : List (Event Fr)) :
    allocEventCount (xs ++ ys) = allocEventCount xs + allocEventCount ys := by
  simp [allocEventCount, List.filter_append]

theorem isAllocEvent_allocEventOf {Fr : Type} (b : Bool) (v : Except SynthesisError Fr) :
    Event.isAllocEvent (allocEventOf b v) = true := by
  cases b <;> simp [allocEventOf, Event.isAllocEvent]

theorem valueConcrete_allocEventOf {Fr : Type} (b : Bool) (v : Fr) :
    Event.valueConcrete (allocEventOf b (Except.ok v)) = true := by
  cases b <;> rfl

theorem isInputAlloc_allocEventOf {Fr : Type} (b : Bool) (v : Except SynthesisError Fr) :
    Event.isInputAlloc (allocEventOf b v) = b := by
  cases b <;> simp [allocEventOf, Event.isInputAlloc]

theorem enforceLabels_allocMap {Fr α : Type} (pairs : List α) (f : α → Bool)
    (g : α → Except SynthesisError Fr) :
    enforceLabels (pairs.map fun p => allocEventOf (f p) (g p)) = [] := by
  induction pairs with
  | nil => rfl
  | cons p rest ih =>
      cases hb : f p <;> simp [enforceLabels, allocEventOf, hb] <;>
        simpa [enforceLabels] using ih

theorem allocEventCount_allocMap {Fr α : Type} (pairs : List α) (f : α → Bool)
    (g : α → Except SynthesisError Fr) :
    allocEventCount (pairs.map fun p => allocEventOf (f p) (g p)) = pairs.length := by
  induction pairs with
  | nil => rfl
  | cons p rest ih =>
      simp [allocEventCount, List.filter_cons, isAllocEvent_allocEventOf]
      simpa [allocEventCount] using ih

theorem allAlloc_allocMap {Fr α : Type} (pairs : List α) (f : α → Bool)
    (g : α → Except SynthesisError Fr) :
    (pairs.map fun p => allocEventOf (f p) (g p)).all Event.isAllocEvent = true := by
  induction pairs with
  | nil => rfl
  | cons p rest ih =>
      simp [List.all_cons, isAllocEvent_allocEventOf, ih]

theorem allConcrete_allocMap {Fr α : Type} (pairs : List α) (f : α → Bool)
    (g : α → Fr) :
    (pairs.map fun p => allocEventOf (f p) (Except.ok (g p))).all
      Event.valueConcrete = true := by
  induction pairs with
  | nil => rfl
  | cons p rest ih =>
      simp [List.all_cons, valueConcrete_allocEventOf, ih]

theorem convert_lc_loop_noFail {F Fr : Type} [Zero Fr] (conv : F → Fr)
    (wm : List (Nat × Fr)) (pub : List Wire) :
    ∀ (pairs : List (Wire × F)) (sum : LinearCombination Fr) (s : CSState Fr),
    ∃ (vars : List Variable) (s' : CSState Fr),
      convert_lc_loop noFailOracle conv wm pub pairs sum s =
        (Except.ok (sum ++ vars.zip (pairs.map fun p => conv p.2)), s') ∧
      vars.length = pairs.length ∧
      s'.events = s.events ++ pairs.map fun p =>
        allocEventOf (pub.contains p.1) (Except.ok (wireValue wm p.1)) := by
  intro pairs
  induction pairs with
  | nil =>
      intro sum s
      exact ⟨[], s, by simp [convert_lc_loop, M.pure], rfl, by simp⟩
  | cons p rest ih =>
      intro sum s
      obtain ⟨wire, coeff⟩ := p
      obtain ⟨vars, s', h1, h2, h3⟩ :=
        ih (sum ++ [(if pub.contains wire then Variable.input s.numInputs
                     else Variable.aux s.numAux, conv coeff)])
           { numInputs := if pub.contains wire then s.numInputs + 1 else s.numInputs,
             numAux := if pub.contains wire then s.numAux else s.numAux + 1,
             events := s.events ++ [allocEventOf (pub.contains wire)
               (Except.ok (wireValue wm wire))] }
      refine ⟨(if pub.contains wire then Variable.input s.numInputs
               else Variable.aux s.numAux) :: vars, s', ?_, by simp [h2], ?_⟩
      · rw [convert_lc_loop]
        simp only [M.bind, convert_wire_noFail]
        rw [h1]
        simp [List.append_assoc]
      · rw [h3]
        simp [List.append_assoc]

theorem convert_lc_noFail {F Fr : Type} [Zero Fr] (exp : Expression F)
    (conv : F → Fr) (wm : List (Nat × Fr)) (pub : List Wire) (s : CSState Fr) :
    ∃ (vars : List Variable) (s' : CSState Fr),
      convert_lc noFailOracle exp conv wm pub s =
        (Except.ok (vars.zip (exp.coefficients.map fun p => conv p.2)), s') ∧
      vars.length = exp.coefficients.length ∧
      s'.events = s.events ++ exp.coefficients.map fun p =>
        allocEventOf (pub.contains p.1) (Except.ok (wireValue wm p.1)) := by
  obtain ⟨vars, s', h1, h2, h3⟩ :=
    convert_lc_loop_noFail conv wm pub exp.coefficients (LinearCombination.zero Fr) s
  exact ⟨vars, s', by simpa [convert_lc, LinearCombination.zero] using h1, h2, h3⟩

theorem synthesize_loop_noFail {F Fr : Type} [Zero Fr] (conv : F → Fr)
    (wm : List (Nat × Fr)) (pub : List Wire) :
    ∀ (cstrs : List (Constraint F)) (i : Nat) (s : CSState Fr),
    ∃ (newEvs : List (Event Fr)) (s' : CSState Fr),
      synthesize_loop noFailOracle conv wm pub cstrs i s = (Except.ok (), s') ∧
      s'.events = s.events ++ newEvs ∧
      enforceLabels newEvs = (List.range cstrs.length).map (fun k => labelAt (i + k)) ∧
      allocEventCount newEvs =
        (cstrs.map fun cstr => cstr.a.size + cstr.b.size + cstr.c.size).sum ∧
      newEvs.all Event.valueConcrete = true := by
  intro cstrs
  induction cstrs with
  | nil =>
      intro i s
      exact ⟨[], s, by simp [synthesize_loop, M.pure], by simp,
        by simp [enforceLabels], by simp [allocEventCount], rfl⟩
  | cons cstr rest ih =>
      intro i s
      obtain ⟨varsA, sA, ha1, ha2, ha3⟩ := convert_lc_noFail cstr.a conv wm pub s
      obtain ⟨varsB, sB, hb1, hb2, hb3⟩ := convert_lc_noFail cstr.b conv wm pub sA
      obtain ⟨varsC, sC, hc1, hc2, hc3⟩ := convert_lc_noFail cstr.c conv wm pub sB
      set lcA := varsA.zip (cstr.a.coefficients.map fun p => conv p.2) with hlcA
      set lcB := varsB.zip (cstr.b.coefficients.map fun p => conv p.2) with hlcB
      set lcC := varsC.zip (cstr.c.coefficients.map fun p => conv p.2) with hlcC
      set sD : CSState Fr :=
        { sC with events := sC.events ++
            [Event.enforce ("generated by r1cs-bellman at " ++ toString i) lcA lcB lcC] }
        with hsD
      obtain ⟨newEvs, s', h1, h2, h3, h4, h5⟩ := ih (i + 1) sD
      refine ⟨(cstr.a.coefficients.map fun p =>
                  allocEventOf (pub.contains p.1) (Except.ok (wireValue wm p.1))) ++
              (cstr.b.coefficients.map fun p =>
                  allocEventOf (pub.contains p.1) (Except.ok (wireValue wm p.1))) ++
              (cstr.c.coefficients.map fun p =>
                  allocEventOf (pub.contains p.1) (Except.ok (wireValue wm p.1))) ++
              [Event.enforce ("generated by r1cs-bellman at " ++ toString i) lcA lcB lcC] ++
              newEvs, s', ?_, ?_, ?_, ?_, ?_⟩
      · rw [synthesize_loop]
        simp only [M.bind, ha1, hb1, hc1, csEnforce]
        exact h1
      · rw [h2, hsD]
        simp only [ha3, hb3, hc3]
        simp [List.append_assoc]
      · simp only [enforceLabels_append, enforceLabels_allocMap, h3]
        simp only [enforceLabels, List.filterMap_cons, List.filterMap_nil]
        have hshift : ∀ k : Nat, i + 1 + k = i + (k + 1) := by omega
        simp [List.range_succ_eq_map, labelAt, hshift, List.map_map, Function.comp]
      · simp only [allocEventCount_append, allocEventCount_allocMap, h4]
        simp [allocEventCount, List.filter_cons, Event.isAllocEvent, Expression.size]
      · simp only [List.all_append, allConcrete_allocMap, h5]
        rfl

theorem synthesize_noFail {F Fr : Type} [Zero Fr] (circ : WrappedCircuit F Fr)
    (s : CSState Fr) :
    ∃ (newEvs : List (Event Fr)) (s' : CSState Fr),
      synthesize noFailOracle circ s = (Except.ok (), s') ∧
      s'.events = s.events ++ newEvs ∧
      enforceLabels newEvs = (List.range circ.gadget.constraints.length).map labelAt ∧
      allocEventCount newEvs = circ.gadget.totalWireOccurrences ∧
      newEvs.all Event.valueConcrete = true := by
  obtain ⟨newEvs, s', h1, h2, h3, h4, h5⟩ :=
    synthesize_loop_noFail circ.convert_field circ.witness_map circ.public_inputs
      circ.gadget.constraints 0 s
  refine ⟨newEvs, s', h1, h2, ?_, ?_, h5⟩
  · simpa [Nat.zero_add] using h3
  · simpa [Gadget.totalWireOccurrences] using h4

/-- Invariant of one backend-driving step: the step either succeeds or
panics with an error the allocation oracle actually produced, and it only
appends events whose value closures return concrete values. -/
def StepOk {Fr α : Type} (failAt : Nat → Option SynthesisError) (s : CSState Fr)
    (out : Except Outcome α × CSState Fr) : Prop :=
  ((∃ a, out.1 = Except.ok a) ∨
    ∃ e, out.1 = Except.error (Outcome.panicked e) ∧ ∃ k, failAt k = some e) ∧
  ∃ newEvs, out.2.events = s.events ++ newEvs ∧ newEvs.all Event.valueConcrete = true

theorem stepOk_bind {Fr α β : Type} {failAt : Nat → Option SynthesisError}
    {x : M Fr α} {f : α → M Fr β}
    (hx : ∀ s, StepOk failAt s (x s)) (hf : ∀ a s, StepOk failAt s (f a s)) :
    ∀ s, StepOk failAt s (M.bind x f s) := by
  intro s
  have hxs := hx s
  rw [M.bind]
  rcases hrs : x s with ⟨r, s₁⟩
  rw [hrs] at hxs
  cases r with
  | ok a =>
      obtain ⟨-, n₁, hev₁, hc₁⟩ := hxs
      obtain ⟨ho, n₂, hev₂, hc₂⟩ := hf a s₁
      exact ⟨ho, n₁ ++ n₂,
        by rw [hev₂, hev₁, List.append_assoc],
        by simp [List.all_append, hc₁, hc₂]⟩
  | error o =>
      obtain ⟨ho, n₁, hev₁, hc₁⟩ := hxs
      refine ⟨?_, n₁, hev₁, hc₁⟩
      rcases ho with ⟨a, ha⟩ | ⟨e, he, hk⟩
      · exact absurd ha (by simp)
      · exact Or.inr ⟨e, by simpa using he, hk⟩

theorem stepOk_convert_wire {Fr : Type} [Zero Fr]
    (failAt : Nat → Option SynthesisError) (wire : Wire)
    (wm : List (Nat × Fr)) (pub : List Wire) :
    ∀ s, StepOk failAt s (convert_wire failAt wire wm pub s) := by
  intro s
  rw [convert_wire_eq]
  cases hf : failAt s.allocCount with
  | some e =>
      exact ⟨Or.inr ⟨e, rfl, s.allocCount, hf⟩, [], by simp, rfl⟩
  | none =>
      exact ⟨Or.inl ⟨_, rfl⟩,
        [allocEventOf (pub.contains wire) (Except.ok (wireValue wm wire))],
        by simp, by simp [valueConcrete_allocEventOf]⟩

theorem stepOk_pure {Fr α : Type} (failAt : Nat → Option SynthesisError) (a : α) :
    ∀ s : CSState Fr, StepOk failAt s (M.pure a s) := by
  intro s
  exact ⟨Or.inl ⟨a, rfl⟩, [], by simp [M.pure], rfl⟩

theorem stepOk_enforce {Fr : Type} (failAt : Nat → Option SynthesisError)
    (label : String) (a b c : LinearCombination Fr) :
    ∀ s, StepOk failAt s (csEnforce label a b c s) := by
  intro s
  exact ⟨Or.inl ⟨(), rfl⟩, [Event.enforce label a b c], by simp [csEnforce], rfl⟩

theorem stepOk_convert_lc_loop {F Fr : Type} [Zero Fr]
    (failAt : Nat → Option SynthesisError) (conv : F → Fr)
    (wm : List (Nat × Fr)) (pub : List Wire) :
    ∀ (pairs : List (Wire × F)) (sum : LinearCombination Fr) (s : CSState Fr),
      StepOk failAt s (convert_lc_loop failAt conv wm pub pairs sum s) := by
  intro pairs
  induction pairs with
  | nil => intro sum s; exact stepOk_pure failAt sum s
  | cons p rest ih =>
      intro sum s
      obtain ⟨wire, coeff⟩ := p
      show StepOk failAt s
        (M.bind (convert_wire failAt wire wm pub) (fun var =>
          convert_lc_loop failAt conv wm pub rest (sum ++ [(var, conv coeff)])) s)
      exact stepOk_bind (stepOk_convert_wire failAt wire wm pub)
        (fun var s₁ => ih (sum ++ [(var, conv coeff)]) s₁) s

theorem stepOk_convert_lc {F Fr : Type} [Zero Fr]
    (failAt : Nat → Option SynthesisError) (exp : Expression F) (conv : F → Fr)
    (wm : List (Nat × Fr)) (pub : List Wire) :
    ∀ s, StepOk failAt s (convert_lc failAt exp conv wm pub s) := by
  intro s
  exact stepOk_convert_lc_loop failAt conv wm pub exp.coefficients
    (LinearCombination.zero Fr) s

theorem stepOk_synthesize_loop {F Fr : Type} [Zero Fr]
    (failAt : Nat → Option SynthesisError) (conv : F → Fr)
    (wm : List (Nat × Fr)) (pub : List Wire) :
    ∀ (cstrs : List (Constraint F)) (i : Nat) (s : CSState Fr),
      StepOk failAt s (synthesize_loop failAt conv wm pub cstrs i s) := by
  intro cstrs
  induction cstrs with
  | nil => intro i s; exact stepOk_pure failAt () s
  | cons cstr rest ih =>
      intro i s
      show StepOk failAt s
        (M.bind (convert_lc failAt cstr.a conv wm pub) (fun a_lc =>
         M.bind (convert_lc failAt cstr.b conv wm pub) (fun b_lc =>
         M.bind (convert_lc failAt cstr.c conv wm pub) (fun c_lc =>
         M.bind (csEnforce ("generated by r1cs-bellman at " ++ toString i) a_lc b_lc c_lc)
           (fun _ => synthesize_loop failAt conv wm pub rest (i + 1))))) s)
      refine stepOk_bind (stepOk_convert_lc failAt cstr.a conv wm pub) ?_ s
      intro a_lc s₁
      refine stepOk_bind (stepOk_convert_lc failAt cstr.b conv wm pub) ?_ s₁
      intro b_lc s₂
      refine stepOk_bind (stepOk_convert_lc failAt cstr.c conv wm pub) ?_ s₂
      intro c_lc s₃
      refine stepOk_bind (stepOk_enforce failAt _ a_lc b_lc c_lc) ?_ s₃
      intro u s₄
      exact ih (i + 1) s₄

theorem stepOk_synthesize {F Fr : Type} [Zero Fr]
    (failAt : Nat → Option SynthesisError) (circ : WrappedCircuit F Fr) :
    ∀ s, StepOk failAt s (synthesize failAt circ s) := by
  intro s
  exact stepOk_synthesize_loop failAt circ.convert_field circ.witness_map
    circ.public_inputs circ.gadget.constraints 0 s

/-! ### The public-input set is consulted only through membership -/

theorem convert_wire_congr {Fr : Type} [Zero Fr]
    (failAt : Nat → Option SynthesisError) (wire : Wire) (wm : List (Nat × Fr))
    {pub₁ pub₂ : List Wire} (h : ∀ w, pub₁.contains w = pub₂.contains w) :
    convert_wire failAt wire wm pub₁ = convert_wire failAt wire wm pub₂ := by
  funext s
  rw [convert_wire_eq, convert_wire_eq, h wire]

theorem convert_lc_loop_congr {F Fr : Type} [Zero Fr]
    (failAt : Nat → Option SynthesisError) (conv : F → Fr) (wm : List (Nat × Fr))
    {pub₁ pub₂ : List Wire} (h : ∀ w, pub₁.contains w = pub₂.contains w) :
    ∀ (pairs : List (Wire × F)) (sum : LinearCombination Fr),
      convert_lc_loop failAt conv wm pub₁ pairs sum =
        convert_lc_loop failAt conv wm pub₂ pairs sum := by
  intro pairs
  induction pairs with
  | nil => intro sum; rfl
  | cons p rest ih =>
      intro sum
      obtain ⟨wire, coeff⟩ := p
      show M.bind (convert_wire failAt wire wm pub₁) (fun var =>
          convert_lc_loop failAt conv wm pub₁ rest (sum ++ [(var, conv coeff)])) =
        M.bind (convert_wire failAt wire wm pub₂) (fun var =>
          convert_lc_loop failAt conv wm pub₂ rest (sum ++ [(var, conv coeff)]))
      rw [convert_wire_congr failAt wire wm h]
      exact congrArg _ (funext fun var => ih (sum ++ [(var, conv coeff)]))

theorem convert_lc_congr {F Fr : Type} [Zero Fr]
    (failAt : Nat → Option SynthesisError) (exp : Expression F) (conv : F → Fr)
    (wm : List (Nat × Fr)) {pub₁ pub₂ : List Wire}
    (h : ∀ w, pub₁.contains w = pub₂.contains w) :
    convert_lc failAt exp conv wm pub₁ = convert_lc failAt exp conv wm pub₂ :=
  convert_lc_loop_congr failAt conv wm h exp.coefficients (LinearCombination.zero Fr)

theorem synthesize_loop_congr {F Fr : Type} [Zero Fr]
    (failAt : Nat → Option SynthesisError) (conv : F → Fr) (wm : List (Nat × Fr))
    {pub₁ pub₂ : List Wire} (h : ∀ w, pub₁.contains w = pub₂.contains w) :
    ∀ (cstrs : List (Constraint F)) (i : Nat),
      synthesize_loop failAt conv wm pub₁ cstrs i =
        synthesize_loop failAt conv wm pub₂ cstrs i := by
  intro cstrs
  induction cstrs with
  | nil => intro i; rfl
  | cons cstr rest ih =>
      intro i
      show M.bind (convert_lc failAt cstr.a conv wm pub₁) (fun a_lc =>
          M.bind (convert_lc failAt cstr.b conv wm pub₁) (fun b_lc =>
          M.bind (convert_lc failAt cstr.c conv wm pub₁) (fun c_lc =>
          M.bind (csEnforce ("generated by r1cs-bellman at " ++ toString i) a_lc b_lc c_lc)
            (fun _ => synthesize_loop failAt conv wm pub₁ rest (i + 1))))) =
        M.bind (convert_lc failAt cstr.a conv wm pub₂) (fun a_lc =>
          M.bind (convert_lc failAt cstr.b conv wm pub₂) (fun b_lc =>
          M.bind (convert_lc failAt cstr.c conv wm pub₂) (fun c_lc =>
          M.bind (csEnforce ("generated by r1cs-bellman at " ++ toString i) a_lc b_lc c_lc)
            (fun _ => synthesize_loop failAt conv wm pub₂ rest (i + 1)))))
      rw [convert_lc_congr failAt cstr.a conv wm h, convert_lc_congr failAt cstr.b conv wm h,
        convert_lc_congr failAt cstr.c conv wm h]
      exact congrArg _ (funext fun a_lc => congrArg _ (funext fun b_lc =>
        congrArg _ (funext fun c_lc => congrArg _ (funext fun u => ih (i + 1)))))

theorem synthesize_congr_pub {F Fr : Type} [Zero Fr]
    (failAt : Nat → Option SynthesisError) (circ : WrappedCircuit F Fr)
    (pub₂ : List Wire) (h : ∀ w, circ.public_inputs.contains w = pub₂.contains w) :
    synthesize failAt circ =
      synthesize failAt { circ with public_inputs := pub₂ } := by
  show synthesize_loop failAt circ.convert_field circ.witness_map
      circ.public_inputs circ.gadget.constraints 0 = _
  rw [synthesize_loop_congr failAt circ.convert_field circ.witness_map h
    circ.gadget.constraints 0]
  rfl

theorem eval_zip_sum {F Fr : Type} [Semiring Fr] (conv : F → Fr) :
    ∀ (pairs : List (Wire × F)) (vars : List Variable),
    vars.length = pairs.length →
    ∀ assign : Variable → Fr,
      LinearCombination.eval assign (vars.zip (pairs.map fun p => conv p.2)) =
        ((pairs.zip vars).map fun q => conv q.1.2 * assign q.2).sum := by
  intro pairs
  induction pairs with
  | nil => intro vars h assign; simp [LinearCombination.eval]
  | cons p rest ih =>
      intro vars h assign
      cases vars with
      | nil => simp at h
      | cons v vs =>
          have hrec := ih vs (by simpa using h) assign
          simp only [List.zip_cons_cons, List.map_cons, LinearCombination.eval,
            List.sum_cons] at hrec ⊢
          rw [hrec]

/-- The value carried by the last recorded event, when it is an allocation. -/
def boundValue {Fr : Type} (out : Except Outcome Variable × CSState Fr) :
    Option (Except SynthesisError Fr) :=
  out.2.events.getLast?.bind fun e =>
    match e with
    | Event.alloc _ v => some v
    | Event.allocInput _ v => some v
    | Event.enforce _ _ _ _ => none

/-! ### Concrete fixtures for counterexamples and witnesses -/

def wOne : Wire := ⟨1⟩

def emptyCS : CSState Nat := ⟨0, 0, []⟩

/-- A backend whose every allocation call fails. -/
def failingBackend : Nat → Option SynthesisError := fun _ => some (SynthesisError.other 7)

/-- One constraint mentioning two wires, both with witness values. -/
def circuitTwoWires : WrappedCircuit Nat Nat :=
  { gadget := ⟨[⟨⟨[(⟨1⟩, 1), (⟨2⟩, 1)]⟩, ⟨[]⟩, ⟨[]⟩⟩]⟩,
    witness_map := [(1, 4), (2, 9)],
    public_inputs := [⟨2⟩],
    convert_field := fun x => x }

/-- One constraint over wire 1, whose witness value is 5, with a converter
that is not the identity (it adds one). -/
def circuitPlusOne : WrappedCircuit Nat Nat :=
  { gadget := ⟨[⟨⟨[(wOne, 3)]⟩, ⟨[]⟩, ⟨[]⟩⟩]⟩,
    witness_map := [(1, 5)],
    public_inputs := [],
    convert_field := fun x => x + 1 }

def emptyCircuit : WrappedCircuit Nat Nat :=
  { gadget := ⟨[]⟩, witness_map := [], public_inputs := [],
    convert_field := fun x => x }

/-- As `circuitPlusOne` but with wire 1 public, listed twice. -/
def circuitDupPublic : WrappedCircuit Nat Nat :=
  { gadget := ⟨[⟨⟨[(wOne, 3)]⟩, ⟨[]⟩, ⟨[]⟩⟩]⟩,
    witness_map := [(1, 5)],
    public_inputs := [wOne, wOne],
    convert_field := fun x => x + 1 }

/-- As `circuitDupPublic` with the duplicate removed. -/
def circuitOnePublic : WrappedCircuit Nat Nat :=
  { gadget := ⟨[⟨⟨[(wOne, 3)]⟩, ⟨[]⟩, ⟨[]⟩⟩]⟩,
    witness_map := [(1, 5)],
    public_inputs := [wOne],
    convert_field := fun x => x + 1 }

/-! ### Claim theorems -/

/-- C1 (counterexample): with a backend whose allocation call fails, the
translation pass does not return the failure to the caller as a synthesis
failure: it aborts by panicking (the `.unwrap()` in `convert_wire`), with
nothing registered — the outcome is a panic carrying the backend's error,
not a returned error value. -/
theorem synthesize_alloc_failure_panics_cex :
    synthesize failingBackend circuitTwoWires emptyCS =
      (Except.error (Outcome.panicked (SynthesisError.other 7)), emptyCS) ∧
    (synthesize failingBackend circuitTwoWires emptyCS).1 ≠
      Except.error (Outcome.returnedErr (SynthesisError.other 7)) := by
  constructor <;> decide

/-- C1 (amended): for every constraint list and every backend allocation
behaviour, the translation pass either succeeds or aborts with a panic
carrying an error the backend's allocation call actually produced — it
never returns an error value to the caller — and with a backend whose
allocations always succeed the pass always returns success; this panic is
the only failure exit of the core (registration is infallible, and there is
no local recovery or retry). -/
theorem synthesize_sole_failure_exit_is_panic {F Fr : Type} [Zero Fr]
    (failAt : Nat → Option SynthesisError) (circ : WrappedCircuit F Fr)
    (s : CSState Fr) :
    ((synthesize failAt circ s).1 = Except.ok () ∨
      ∃ e, (synthesize failAt circ s).1 = Except.error (Outcome.panicked e) ∧
        ∃ k, failAt k = some e) ∧
    (synthesize noFailOracle circ s).1 = Except.ok () := by
  constructor
  · obtain ⟨ho, -⟩ := stepOk_synthesize failAt circ s
    rcases ho with ⟨a, ha⟩ | h
    · cases a; exact Or.inl ha
    · exact Or.inr h
  · obtain ⟨ho, -⟩ := stepOk_synthesize noFailOracle circ s
    rcases ho with ⟨a, ha⟩ | ⟨e, he, k, hk⟩
    · cases a; exact ha
    · simp [noFailOracle] at hk

/-- C2 (counterexample): wire 1 has stored witness value 5 and the injected
converter maps 5 to 6, yet the backend variable's value closure carries the
stored value 5 as-is — not the converter's image 6, and not the zero
default. -/
theorem convert_wire_stored_value_not_converted_cex :
    (synthesize noFailOracle circuitPlusOne emptyCS).2.events =
      [Event.alloc "private input" (Except.ok 5),
       Event.enforce "generated by r1cs-bellman at 0" [(Variable.aux 0, 4)] [] []] ∧
    circuitPlusOne.convert_field 5 = 6 ∧
    (Except.ok (5 : Nat) : Except SynthesisError Nat) ≠ Except.ok 6 ∧
    (Except.ok (5 : Nat) : Except SynthesisError Nat) ≠ Except.ok 0 := by
  refine ⟨by decide, rfl, by decide, by decide⟩

/-- C2 (amended): for every wire resolved during a translation pass, if the
wire's index is present in the witness assignment, the backend variable is
bound to the stored value as-is (the witness map already holds backend
field elements; the injected field-element converter is not applied at
resolution); if the index is absent, the variable is bound to the backend
field's additive identity (zero). -/
theorem convert_wire_binds_stored_or_zero {Fr : Type} [Zero Fr]
    (wire : Wire) (wm : List (Nat × Fr)) (pub : List Wire) (s : CSState Fr) :
    ∃ (var : Variable) (s' : CSState Fr),
      convert_wire noFailOracle wire wm pub s = (Except.ok var, s') ∧
      s'.events = s.events ++
        [allocEventOf (pub.contains wire)
          (Except.ok (match wm.lookup wire.index with
                      | some stored => stored
                      | none => (0 : Fr)))] := by
  rw [convert_wire_noFail]
  refine ⟨_, _, rfl, ?_⟩
  have hmatch : (match wm.lookup wire.index with
      | some stored => stored
      | none => (0 : Fr)) = wireValue wm wire := by
    cases h : wm.lookup wire.index <;> simp [wireValue, h]
  rw [hmatch]

/-- C3: every wire resolution allocates exactly one backend variable whose
visibility is public (a public-input allocation, yielding an input handle)
if and only if the wire is a member of the public-input set; the
right-hand side of the equivalence does not mention the witness map, so the
decision is independent of whether the wire has a witness value. -/
theorem convert_wire_visibility_iff_public_membership {Fr : Type} [Zero Fr]
    (wire : Wire) (wm : List (Nat × Fr)) (pub : List Wire) (s : CSState Fr) :
    ∃ (e : Event Fr) (s' : CSState Fr),
      convert_wire noFailOracle wire wm pub s =
        (Except.ok (if pub.contains wire then Variable.input s.numInputs
                    else Variable.aux s.numAux), s') ∧
      s'.events = s.events ++ [e] ∧
      (e.isInputAlloc = true ↔ wire ∈ pub) := by
  rw [convert_wire_noFail]
  refine ⟨allocEventOf (pub.contains wire) (Except.ok (wireValue wm wire)), _,
    rfl, rfl, ?_⟩
  rw [isInputAlloc_allocEventOf]
  simp

/-- C4: the Expression Translator starts from the zero linear combination,
visits every (wire, coefficient) pair exactly once (one resolved variable
and one accumulated term per pair), returns a linear combination
algebraically equal to the sum of converted-coefficient times resolved
variable over the pairs, and registers no constraints itself (every backend
call it appends is an allocation). -/
theorem convert_lc_builds_sum_of_scaled_terms {F Fr : Type} [Semiring Fr]
    (exp : Expression F) (conv : F → Fr) (wm : List (Nat × Fr))
    (pub : List Wire) (s : CSState Fr) :
    ∃ (vars : List Variable) (s' : CSState Fr),
      convert_lc noFailOracle exp conv wm pub s =
        (Except.ok (LinearCombination.zero Fr ++
          vars.zip (exp.coefficients.map fun p => conv p.2)), s') ∧
      vars.length = exp.coefficients.length ∧
      (∀ assign : Variable → Fr,
        LinearCombination.eval assign
            (vars.zip (exp.coefficients.map fun p => conv p.2)) =
          ((exp.coefficients.zip vars).map fun q => conv q.1.2 * assign q.2).sum) ∧
      s'.events = s.events ++ exp.coefficients.map (fun p =>
        allocEventOf (pub.contains p.1) (Except.ok (wireValue wm p.1))) ∧
      (exp.coefficients.map fun p =>
        allocEventOf (pub.contains p.1) (Except.ok (wireValue wm p.1))).all
          Event.isAllocEvent = true := by
  obtain ⟨vars, s', h1, h2, h3⟩ := convert_lc_noFail exp conv wm pub s
  refine ⟨vars, s', ?_, h2, fun assign => eval_zip_sum conv exp.coefficients vars h2 assign,
    h3, ?_⟩
  · simpa [LinearCombination.zero] using h1
  · exact allAlloc_allocMap exp.coefficients (fun p => pub.contains p.1)
      (fun p => Except.ok (wireValue wm p.1))

/-- C5: every call to the Wire Resolver performs exactly one allocation
against the backend (the allocation-event count grows by exactly one), and
across a whole translation pass the number of allocation calls equals the
total number of wire occurrences in the gadget, counted with multiplicity —
there is no wire-to-handle cache. -/
theorem wire_resolution_allocates_per_occurrence {F Fr : Type} [Zero Fr] :
    (∀ (wire : Wire) (wm : List (Nat × Fr)) (pub : List Wire) (s : CSState Fr),
      allocEventCount ((convert_wire noFailOracle wire wm pub s).2.events) =
        allocEventCount s.events + 1) ∧
    (∀ (circ : WrappedCircuit F Fr) (s : CSState Fr),
      allocEventCount ((synthesize noFailOracle circ s).2.events) =
        allocEventCount s.events + circ.gadget.totalWireOccurrences) := by
  constructor
  · intro wire wm pub s
    rw [convert_wire_noFail]
    simp [allocEventCount_append, allocEventCount, List.filter_cons,
      isAllocEvent_allocEventOf]
  · intro circ s
    obtain ⟨newEvs, s', h1, h2, h3, h4, h5⟩ := synthesize_noFail circ s
    rw [h1]
    show allocEventCount s'.events = _
    rw [h2, allocEventCount_append, h4]

/-- C6: over any constraint list, the Constraint Emitter registers exactly
one backend constraint per input constraint in original order — the i-th
registered constraint's diagnostic label is the label embedding sequence
index i — and a pass over an empty constraint list succeeds with the
backend state untouched (zero constraints registered). -/
theorem synthesize_emits_constraints_in_order_with_indexed_labels
    {F Fr : Type} [Zero Fr] (circ : WrappedCircuit F Fr) (s : CSState Fr) :
    ∃ (newEvs : List (Event Fr)) (s' : CSState Fr),
      synthesize noFailOracle circ s = (Except.ok (), s') ∧
      s'.events = s.events ++ newEvs ∧
      enforceLabels newEvs = (List.range circ.gadget.constraints.length).map labelAt ∧
      (circ.gadget.constraints = [] →
        synthesize noFailOracle circ s = (Except.ok (), s)) := by
  obtain ⟨newEvs, s', h1, h2, h3, h4, h5⟩ := synthesize_noFail circ s
  refine ⟨newEvs, s', h1, h2, h3, ?_⟩
  intro hnil
  show synthesize_loop noFailOracle circ.convert_field circ.witness_map
    circ.public_inputs circ.gadget.constraints 0 s = (Except.ok (), s)
  rw [hnil]
  rfl

/-- C6 (witness): a pass over the empty gadget succeeds and registers
nothing. -/
theorem synthesize_empty_gadget_witness :
    synthesize noFailOracle emptyCircuit emptyCS = (Except.ok (), emptyCS) := by
  obtain ⟨newEvs, s', h1, h2, h3, h4⟩ :=
    synthesize_emits_constraints_in_order_with_indexed_labels emptyCircuit emptyCS
  exact h4 rfl

/-- C7: the core never hands the backend a failing value closure: for every
backend allocation behaviour and every circuit, every allocation event of
the translation pass carries a concrete (`ok`) value — the converted
witness value stored in the map or the zero default — so an
assignment-missing error can only originate from the backend, never from
this core. -/
theorem synthesize_alloc_value_closures_always_concrete {F Fr : Type} [Zero Fr]
    (failAt : Nat → Option SynthesisError) (circ : WrappedCircuit F Fr)
    (numInputs numAux : Nat) :
    ((synthesize failAt circ ⟨numInputs, numAux, []⟩).2.events).all
      Event.valueConcrete = true := by
  obtain ⟨-, newEvs, hev, hc⟩ := stepOk_synthesize failAt circ ⟨numInputs, numAux, []⟩
  rw [hev]
  simpa using hc

/-- C8: within a pass, every occurrence of the same wire is bound to the
same value: the value carried by the allocation a wire resolution records
is a function of the witness map and the wire alone — the backend state (so
the occurrence's position in the pass) and the public-input set do not
influence it, even though they determine the (possibly distinct) handle. -/
theorem convert_wire_value_consistent_per_wire {Fr : Type} [Zero Fr]
    (wire : Wire) (wm : List (Nat × Fr)) (pub₁ pub₂ : List Wire)
    (s₁ s₂ : CSState Fr) :
    boundValue (convert_wire noFailOracle wire wm pub₁ s₁) =
      some (Except.ok (wireValue wm wire)) ∧
    boundValue (convert_wire noFailOracle wire wm pub₁ s₁) =
      boundValue (convert_wire noFailOracle wire wm pub₂ s₂) := by
  have hval : ∀ (pub : List Wire) (s : CSState Fr),
      boundValue (convert_wire noFailOracle wire wm pub s) =
        some (Except.ok (wireValue wm wire)) := by
    intro pub s
    rw [convert_wire_noFail]
    show (s.events ++ [allocEventOf (pub.contains wire)
      (Except.ok (wireValue wm wire))]).getLast?.bind _ = _
    rw [List.getLast?_concat]
    cases hp : pub.contains wire <;> simp [allocEventOf]
  exact ⟨hval pub₁ s₁, by rw [hval pub₁ s₁, hval pub₂ s₂]⟩

/-- C9: duplicate entries in the public-inputs list have no effect: the
list is only consulted through membership (the source converts it into a
set), so a pass with duplicates behaves identically — same allocations,
same visibilities, same constraints, same outcome — to one with the
duplicates removed. -/
theorem synthesize_public_input_duplicates_irrelevant {F Fr : Type} [Zero Fr]
    (failAt : Nat → Option SynthesisError) (circ : WrappedCircuit F Fr) :
    synthesize failAt circ =
      synthesize failAt { circ with public_inputs := circ.public_inputs.dedup } := by
  apply synthesize_congr_pub
  intro w
  simp [List.mem_dedup]

/-- C10: the translation pass is deterministic: for a fixed backend
allocation behaviour and backend start state, two circuits with the same
gadget, witness assignment, converter, and extensionally equal public-input
sets produce the identical run — the same sequence of backend allocation
and enforcement calls with identical values, visibilities, coefficients,
and labels, as recorded in the event trace. -/
theorem synthesize_deterministic_in_inputs {F Fr : Type} [Zero Fr]
    (failAt : Nat → Option SynthesisError) (c₁ c₂ : WrappedCircuit F Fr)
    (hg : c₁.gadget = c₂.gadget) (hw : c₁.witness_map = c₂.witness_map)
    (hc : c₁.convert_field = c₂.convert_field)
    (hp : ∀ w, c₁.public_inputs.contains w = c₂.public_inputs.contains w)
    (s : CSState Fr) :
    synthesize failAt c₁ s = synthesize failAt c₂ s := by
  have h2 := synthesize_congr_pub failAt c₁ c₂.public_inputs hp
  rw [h2]
  have h3 : ({ c₁ with public_inputs := c₂.public_inputs } : WrappedCircuit F Fr) = c₂ := by
    cases c₁
    cases c₂
    simp_all
  rw [h3]

/-- C10 (witness): two concrete circuits differing only in the
representation of the public-input set (wire 1 listed twice versus once)
produce the identical run. -/
theorem synthesize_deterministic_witness :
    synthesize noFailOracle circuitDupPublic emptyCS =
      synthesize noFailOracle circuitOnePublic emptyCS := by
  refine synthesize_deterministic_in_inputs noFailOracle circuitDupPublic
    circuitOnePublic rfl rfl rfl ?_ emptyCS
  intro w
  simp [circuitDupPublic, circuitOnePublic]

end R1csBellman
